import Mathlib

/-!
Shallow embedding of `src/cache_bus.h` (namespace `Cached`): the per-line
cached-read wrapper `InputRead` with its two concrete kinds `Digital` and
`Analog`, the fixed-width homogeneous bus `Bus<T, N>` and the fixed-width
heterogeneous bus `VBus<T...>`.

Modelling choices:
* A hardware line (mbed `DigitalIn` / `AnalogIn`) is modelled as the stream
  `raw : Nat → Value` of raw samples it produces, together with a counter
  `calls` of samples taken so far; the k-th hardware sample of a line is
  `raw k`.
* `Digital`'s data type `int` is modelled as `Int`; `Analog`'s data type
  `float` is modelled as `Rat` (the code never computes with analog values,
  it only transports them, so any value type with decidable equality is a
  faithful stand-in).
* The `data` cache member is left uninitialized by `InputRead`'s constructor
  in the source, so the constructor model takes the indeterminate initial
  content as an explicit `junk` argument.
* Compile-time index packs `<I, In, Index...>` become `List Nat` arguments;
  positions rejected by `static_assert(I < N)` cannot occur, and the
  corresponding unreachable branches return a dummy value.
* Every bus operation additionally returns its `Trace`: the ordered list of
  `(position, inverse_read)` hardware sample calls it performs, which is how
  sampling-order statements are expressed.
-/

/-- The two concrete line kinds of the source: `Digital` (data type `int`)
and `Analog` (data type `float`). -/
inductive Kind where
  | digital
  | analog
deriving DecidableEq, Repr

/-- A value of a line's data type: `vint` for `Digital`'s `int`, `vflt` for
`Analog`'s `float` (modelled as `Rat`). -/
inductive Value where
  | vint (n : Int)
  | vflt (q : Rat)
deriving DecidableEq, Repr

/-- The value-initialized content of a field of the kind's data type, as
produced by `std::tuple`'s default constructor (`data_bus dbus;`):
`0` for `int`, `0.0` for `float`. -/
def Kind.zeroValue : Kind → Value
  | .digital => .vint 0
  | .analog => .vflt 0

/-- Models `Cached::InputRead<In, Data>` together with its concrete
subclasses `Digital` and `Analog`: `kind` records which subclass this is
(the source selects `read` by virtual dispatch), `raw` models the referenced
hardware line as the stream of raw samples it produces, `calls` counts the
samples taken so far, and `data` is the cache member. -/
structure InputRead where
  kind : Kind
  raw : Nat → Value
  calls : Nat
  data : Value

/-- `InputRead::read_cached()`: returns the stored cache value `data`,
no side effect, no hardware access. -/
def InputRead.read_cached (l : InputRead) : Value := l.data

/-- `InputRead::operator Data()`: returns the `data` member. -/
def InputRead.toData (l : InputRead) : Value := l.data

/-- `InputRead::InputRead(In& in) : in(in) {}`: binds the line reference and
nothing else; the `data` member is left uninitialized, so a freshly
constructed instance's cache holds an arbitrary indeterminate value, which
the model takes as the explicit argument `junk`. -/
def InputRead.construct (k : Kind) (raw : Nat → Value) (junk : Value) : InputRead :=
  { kind := k, raw := raw, calls := 0, data := junk }

/-- Modelled from the spec: `Digital::read(bool)` and `Analog::read(bool)`
are declared in `src/cache_bus.h` (lines 37, 43) but their definitions are
not under `src/`. Per spec §4.1, `read` samples the underlying line, applies
the kind's inversion semantics — for the binary kind `inverse_read = true`
flips the sampled bit (0↔1), for the analog kind the flag has no effect on
the value — stores the result as the new cache value, and returns it. -/
def InputRead.read (l : InputRead) (inverse_read : Bool) : Value × InputRead :=
  let rawv := l.raw l.calls
  let v : Value :=
    match l.kind, rawv with
    | .digital, .vint n => .vint (if inverse_read then (if n = 0 then 1 else 0) else n)
    | .digital, w => w
    | .analog, w => w
  (v, { l with calls := l.calls + 1, data := v })

/-- The state of a bus: the ordered array `T list[N]` of its lines
(`N = length`). Used for both `Bus<T, N>` (all kinds equal) and
`VBus<T...>` (kinds per position). -/
abbrev BusState := List InputRead

/-- A trace of hardware sample calls: one `(position, inverse_read)` entry
per `list[i].read(flag)` call, in execution order. -/
abbrev Trace := List (Nat × Bool)

/-- One `list[i].read(flag)` call: position `i`'s line samples and updates
its cache; every other position is untouched. (`i ≥ N` never reaches this in
the source: compile-time positions are rejected by `static_assert`, and the
runtime paths are modelled separately.) -/
def busReadAt (bus : BusState) (i : Nat) (inv : Bool) : BusState :=
  match bus[i]? with
  | some l => bus.set i (l.read inv).2
  | none => bus

/-- Result of a runtime-indexed bus access. The source's bounds check
`if (index >= N)` is present but its `throw` is commented out
(`src/cache_bus.h` lines 86–88, 128–130), so an out-of-range index falls
through into the array access `list[index]`: `outOfBoundsError` models the
disabled throw (never produced), `undefinedAccess` models control reaching
the out-of-range array access. -/
inductive AccessResult (α : Type) where
  | ok (a : α)
  | outOfBoundsError
  | undefinedAccess
deriving DecidableEq, Repr

/-- `Bus::operator[](size_t index)`: for `index < N` returns
`list[index].read_cached()`; for `index ≥ N` the guard's throw is commented
out and execution proceeds into the out-of-range access `list[index]`. -/
def Bus.index (bus : BusState) (i : Nat) : AccessResult Value :=
  match bus[i]? with
  | some l => .ok l.read_cached
  | none => .undefinedAccess

/-- `Bus::get<I>()`: `static_assert(I < N)` then `list[I].read_cached()`.
The `none` branch is unreachable in the source (build-time rejection). -/
def Bus.get (bus : BusState) (i : Nat) : Value :=
  match bus[i]? with
  | some l => l.read_cached
  | none => .vint 0

/-- Loop of `Bus::read_all`: `for (auto &in : list) in.read(inverse_read);`
— visits positions ascending, starting at `i`, `n` positions remaining. -/
def Bus.read_all_go : BusState → Bool → Nat → Nat → BusState × Trace
  | bus, _, _, 0 => (bus, [])
  | bus, inv, i, n + 1 =>
    let r := Bus.read_all_go (busReadAt bus i inv) inv (i + 1) n
    (r.1, (i, inv) :: r.2)

/-- `Bus::read_all(bool inverse_read)`: samples every position `0..N-1` in
ascending order. -/
def Bus.read_all (bus : BusState) (inv : Bool) : BusState × Trace :=
  Bus.read_all_go bus inv 0 bus.length

/-- `Bus::read<I>(bool inverse_read)`: `static_assert(I < N)` then
`list[I].read(inverse_read)`. -/
def Bus.read_one (bus : BusState) (i : Nat) (inv : Bool) : BusState × Trace :=
  (busReadAt bus i inv, [(i, inv)])

/-- `Bus::read<I, In, Index...>(bool inverse_read)`: samples `list[I]` with
the flag, then recurses via `read<In, Index...>()` — the call omits
`inverse_read`, so the flag defaults to `false` for every position after the
first. The empty-pack case does not exist in the source (the one-index and
two-or-more-index overloads cover every instantiation). -/
def Bus.read_var : BusState → List Nat → Bool → BusState × Trace
  | bus, [], _ => (bus, [])
  | bus, [i], inv => (busReadAt bus i inv, [(i, inv)])
  | bus, i :: j :: rest, inv =>
    let r := Bus.read_var (busReadAt bus i inv) (j :: rest) false
    (r.1, (i, inv) :: r.2)

/-- `Bus::read(std::initializer_list<size_t> ids, bool inverse_read)`: for
each listed id in order, the bounds check's throw is commented out, so an
id `≥ N` proceeds into the out-of-range access `list[id].read(...)`
(modelled as `undefinedAccess`); in-range ids sample in list order. -/
def Bus.read_ids : BusState → List Nat → Bool → AccessResult (BusState × Trace)
  | bus, [], _ => .ok (bus, [])
  | bus, id :: rest, inv =>
    if bus.length ≤ id then
      .undefinedAccess
    else
      match Bus.read_ids (busReadAt bus id inv) rest inv with
      | .ok (b, t) => .ok (b, (id, inv) :: t)
      | .outOfBoundsError => .outOfBoundsError
      | .undefinedAccess => .undefinedAccess

/-- `VBus::read<I>(bool inverse_read)`: `std::get<I>(list).read(inverse_read)`
— samples position `I`, updates its cache, and returns the sampled value.
The `none` branch is unreachable in the source (`std::get<I>` rejects
`I ≥ K` at build time). -/
def VBus.read_one (bus : BusState) (i : Nat) (inv : Bool) : Value × BusState :=
  match bus[i]? with
  | some l =>
    let p := l.read inv
    (p.1, bus.set i p.2)
  | none => (.vint 0, bus)

/-- `VBus::get<I>()`: `std::get<I>(list).read_cached()`. -/
def VBus.get (bus : BusState) (i : Nat) : Value :=
  match bus[i]? with
  | some l => l.read_cached
  | none => .vint 0

/-- `VBus::read_iter<DBus, I, ...>` on the index pack: the one-index overload
does `std::get<0>(data) = read<I>(inverse_read)`; the two-or-more overload
samples position `I` and stores the value at record index
`sizeof...(Index) + 1` — the length of the remaining pack — then recurses
with `inverse_read` forwarded. Returns (record, bus, trace). -/
def VBus.read_iter : BusState → List Value → Bool → List Nat → List Value × BusState × Trace
  | bus, record, _, [] => (record, bus, [])
  | bus, record, inv, [i] =>
    let p := VBus.read_one bus i inv
    (record.set 0 p.1, p.2, [(i, inv)])
  | bus, record, inv, i :: j :: rest =>
    let p := VBus.read_one bus i inv
    let r := VBus.read_iter p.2 (record.set (j :: rest).length p.1) inv (j :: rest)
    (r.1, r.2.1, (i, inv) :: r.2.2)

/-- `bound_data_bus<Ids...> dbus;` — the default-constructed result record:
one value-initialized field per listed position, typed per that position's
kind. -/
def VBus.initRecord (bus : BusState) (ids : List Nat) : List Value :=
  ids.map (fun i =>
    match bus[i]? with
    | some l => l.kind.zeroValue
    | none => .vint 0)

/-- `VBus::read<I, In, Index...>(bool inverse_read)`: default-constructs the
record and runs `read_iter` over the listed positions. -/
def VBus.read_var (bus : BusState) (ids : List Nat) (inv : Bool) :
    List Value × BusState × Trace :=
  VBus.read_iter bus (VBus.initRecord bus ids) inv ids

/-- `VBus::read_all_iter<I>`: the `void_if_nil<I - 1u>` overload (selected
when `I = 1`) does `read<0>` and stores it at record index 0; the
`void_if_non_nil<I - 1u>` overload does `read<I>`, stores it at record index
`I`, and recurses at `I - 1`. `read_all_iter<0>` (reached only when the bus
declares a single kind) never compiles in the source — its recursion at
`0 - 1u = SIZE_MAX` has no valid instantiation — so the `0` case below is
unreachable. -/
def VBus.read_all_iter : BusState → List Value → Bool → Nat → List Value × BusState × Trace
  | bus, record, _, 0 => (record, bus, [])
  | bus, record, inv, 1 =>
    let p := VBus.read_one bus 0 inv
    (record.set 0 p.1, p.2, [(0, inv)])
  | bus, record, inv, n + 2 =>
    let p := VBus.read_one bus (n + 2) inv
    let r := VBus.read_all_iter p.2 (record.set (n + 2) p.1) inv (n + 1)
    (r.1, r.2.1, (n + 2, inv) :: r.2.2)

/-- `VBus::read_all(bool inverse_read)`: default-constructs `data_bus dbus;`
(one value-initialized field per declared kind) and calls
`read_all_iter<K - 1>`. -/
def VBus.read_all (bus : BusState) (inv : Bool) : List Value × BusState × Trace :=
  VBus.read_all_iter bus (bus.map (fun l => l.kind.zeroValue)) inv (bus.length - 1)

/-! Concrete lines and buses used to evaluate the code on specific inputs
(raw streams are constant; the junk argument stands for whatever the
uninitialized `data` member happens to contain). -/

/-- A digital line whose hardware constantly reads high (1); its
uninitialized cache happens to hold 5. -/
def demoD1 : InputRead := InputRead.construct .digital (fun _ => .vint 1) (.vint 5)

/-- A digital line whose hardware constantly reads low (0); its
uninitialized cache happens to hold 6. -/
def demoD0 : InputRead := InputRead.construct .digital (fun _ => .vint 0) (.vint 6)

/-- An analog line whose hardware constantly reads 0.42; its uninitialized
cache happens to hold 9. -/
def demoA : InputRead := InputRead.construct .analog (fun _ => .vflt (21 / 50)) (.vflt 9)

/-- The spec's §8 heterogeneous scenario: kinds (binary, analog, binary)
with raw samples (1, 0.42, 0). -/
def demoHBus : BusState := [demoD1, demoA, demoD0]

/-- A two-kind heterogeneous bus of two digital lines with raw samples
(1, 0). -/
def demoVBus2 : BusState := [demoD1, demoD0]

/-- A homogeneous digital bus of width 2 with raw samples (0, 0). -/
def demoDBus2 : BusState := [demoD0, demoD0]

/-- A homogeneous digital bus of width 1. -/
def demoDBus1 : BusState := [demoD0]

/-- A homogeneous digital bus of width 3 with raw samples (1, 0, 1). -/
def demoDBus3 : BusState := [demoD1, demoD0, demoD1]

/-- A freshly constructed digital `InputRead` that has never been sampled;
the indeterminate content of its uninitialized `data` member happens to be
7. -/
def freshDigital : InputRead := InputRead.construct .digital (fun _ => .vint 1) (.vint 7)

/-! Determinism machinery: two runs are compared line-by-line. `LineMatch`
says two lines are in equivalent states — same subclass, same cached value,
and the hardware returns equal raw samples at corresponding (future) calls;
the call counters themselves may differ. -/

/-- Two lines in equivalent states: same kind, same cached value, and their
hardware lines return equal raw samples at corresponding calls from now
on. -/
def LineMatch (l1 l2 : InputRead) : Prop :=
  l1.kind = l2.kind ∧ l1.data = l2.data ∧
    ∀ n, l1.raw (l1.calls + n) = l2.raw (l2.calls + n)

/-- Lift `LineMatch` to optional lookup results. -/
def OptMatch : Option InputRead → Option InputRead → Prop
  | some a, some b => LineMatch a b
  | none, none => True
  | _, _ => False

/-- Two bus states in equivalent states: same width and position-wise
`LineMatch`. -/
def BusMatch (b1 b2 : BusState) : Prop :=
  b1.length = b2.length ∧ ∀ i : Nat, OptMatch b1[i]? b2[i]?

/-- One bus operation of the source's mutating read interface. -/
inductive BusOp where
  | readAllH (inv : Bool)
  | readListH (ids : List Nat) (inv : Bool)
  | readIdsH (ids : List Nat) (inv : Bool)
  | readAllV (inv : Bool)
  | readListV (ids : List Nat) (inv : Bool)
deriving Repr

/-- Run one bus operation: the resulting bus state plus the returned record
(empty for the homogeneous operations, which return no values). The runtime
list read propagates its out-of-range outcome. -/
def BusOp.run (bus : BusState) : BusOp → AccessResult (BusState × List Value)
  | .readAllH inv => .ok ((Bus.read_all bus inv).1, [])
  | .readListH ids inv => .ok ((Bus.read_var bus ids inv).1, [])
  | .readIdsH ids inv =>
    match Bus.read_ids bus ids inv with
    | .ok (b, _) => .ok (b, [])
    | .outOfBoundsError => .outOfBoundsError
    | .undefinedAccess => .undefinedAccess
  | .readAllV inv =>
    let r := VBus.read_all bus inv
    .ok (r.2.1, r.1)
  | .readListV ids inv =>
    let r := VBus.read_var bus ids inv
    .ok (r.2.1, r.1)

/-- Run a sequence of bus operations, collecting each operation's returned
record. -/
def runOps : BusState → List BusOp → AccessResult (BusState × List (List Value))
  | bus, [] => .ok (bus, [])
  | bus, op :: rest =>
    match op.run bus with
    | .ok (b, out) =>
      match runOps b rest with
      | .ok (b2, outs) => .ok (b2, out :: outs)
      | .outOfBoundsError => .outOfBoundsError
      | .undefinedAccess => .undefinedAccess
    | .outOfBoundsError => .outOfBoundsError
    | .undefinedAccess => .undefinedAccess

/-- Relate the overall outcomes of two runs: equal branch, equivalent final
states, equal returned records. -/
def ResMatch : AccessResult (BusState × List (List Value)) →
    AccessResult (BusState × List (List Value)) → Prop
  | .ok (s1, o1), .ok (s2, o2) => BusMatch s1 s2 ∧ o1 = o2
  | .outOfBoundsError, .outOfBoundsError => True
  | .undefinedAccess, .undefinedAccess => True
  | _, _ => False

/-! Helper lemmas about single-line sampling and single-position bus
updates. -/

theorem getElem?_some_lt {bus : BusState} {i : Nat} {l : InputRead}
    (h : bus[i]? = some l) : i < bus.length := by
  by_contra hc
  rw [List.getElem?_eq_none (by omega)] at h
  exact Option.noConfusion h

theorem busReadAt_length (bus : BusState) (i : Nat) (inv : Bool) :
    (busReadAt bus i inv).length = bus.length := by
  unfold busReadAt
  cases bus[i]? <;> simp

theorem busReadAt_get_ne (bus : BusState) (i : Nat) (inv : Bool) (j : Nat)
    (h : j ≠ i) : (busReadAt bus i inv)[j]? = bus[j]? := by
  unfold busReadAt
  cases bus[i]? with
  | none => rfl
  | some l => exact List.getElem?_set_ne (Ne.symm h)

theorem busReadAt_get_self (bus : BusState) (i : Nat) (inv : Bool) :
    (busReadAt bus i inv)[i]? = bus[i]?.map (fun l => (l.read inv).2) := by
  unfold busReadAt
  cases h : bus[i]? with
  | none => rw [h]; rfl
  | some l =>
    have hlt : i < bus.length := getElem?_some_lt h
    show (bus.set i (l.read inv).2)[i]? = _
    rw [List.getElem?_set_eq_of_lt _ hlt]
    rfl

/-- After one `read`, the cache holds exactly the value just sampled and
returned. -/
theorem read_caches_sampled_value (l : InputRead) (inv : Bool) :
    ((l.read inv).2).read_cached = (l.read inv).1 := rfl

/-! Claim theorems. -/

/-- C1: on the spec's §8 heterogeneous scenario — kinds (binary, analog,
binary), raw samples (1, 0.42, 0) — `read_all(false)` does NOT sample every
position exactly once: its hardware-call trace is position 2 then position 0
(position 1 is never sampled, because the `void_if_nil` base overload of
`read_all_iter`, selected at `I = 1`, reads position 0); field 1 of the
returned record keeps its value-initialized 0 instead of the fresh sample
0.42, and position 1's line still has its uninitialized cache and zero calls
afterwards. -/
theorem vbus_read_all_skips_position_one :
    (VBus.read_all demoHBus false).2.2 = [(2, false), (0, false)] ∧
    (VBus.read_all demoHBus false).1 = [.vint 1, .vflt 0, .vint 0] ∧
    (VBus.read_all demoHBus false).1 ≠ [.vint 1, .vflt (21 / 50), .vint 0] ∧
    (VBus.read_all demoHBus false).2.1[1]? = some demoA :=
  ⟨rfl, rfl, by
    rw [show (VBus.read_all demoHBus false).1 = [.vint 1, .vflt 0, .vint 0] from rfl]
    norm_num, rfl⟩

/-- C2: on a heterogeneous bus of two digital lines with raw samples (1, 0),
`read<0, 1>(false)` samples the listed positions in call order (trace
(0, false) then (1, false)) but fills the record in REVERSE: field 0
receives position 1's value and field 1 receives position 0's value, so the
record is (0, 1) where the claim requires (1, 0). -/
theorem vbus_read_record_reversed :
    (VBus.read_var demoVBus2 [0, 1] false).2.2 = [(0, false), (1, false)] ∧
    (VBus.read_var demoVBus2 [0, 1] false).1 = [.vint 0, .vint 1] ∧
    (VBus.read_var demoVBus2 [0, 1] false).1 ≠ [.vint 1, .vint 0] :=
  ⟨rfl, rfl, by decide⟩

/-- C3: on a homogeneous digital bus of width 2 with raw samples (0, 0),
`read<0, 1>(true)` samples position 0 inverted but position 1 NOT inverted —
the recursive call `read<In, Index...>()` drops `inverse_read`, which
defaults to `false` — so the caches end up (1, 0) where the claim requires
(1, 1). The listed positions are still sampled in the given order. -/
theorem bus_variadic_read_drops_flag :
    (Bus.read_var demoDBus2 [0, 1] true).2 = [(0, true), (1, false)] ∧
    (Bus.read_var demoDBus2 [0, 1] true).1.map InputRead.read_cached =
      [.vint 1, .vint 0] ∧
    (Bus.read_var demoDBus2 [0, 1] true).1.map InputRead.read_cached ≠
      [.vint 1, .vint 1] :=
  ⟨rfl, rfl, by decide⟩

/-- C4: on a homogeneous bus of width 1, the out-of-range accesses
`operator[](1)` and `read({1}, false)` raise no explicit error — the bounds
check's throw is commented out — and execution proceeds into the
out-of-range array access `list[1]`. -/
theorem oob_access_proceeds_without_error :
    Bus.index demoDBus1 1 = .undefinedAccess ∧
    Bus.index demoDBus1 1 ≠ .outOfBoundsError ∧
    Bus.read_ids demoDBus1 [1] false = .undefinedAccess ∧
    Bus.read_ids demoDBus1 [1] false ≠ .outOfBoundsError :=
  ⟨rfl, by decide, rfl, fun h => nomatch h⟩

/-- C5: `read_cached()` on a freshly constructed, never-sampled digital
`InputRead` returns whatever indeterminate value the uninitialized `data`
member holds (here 7), not the data type's zero — the constructor
`InputRead(In& in) : in(in) {}` initializes only the line reference. -/
theorem fresh_read_cached_is_indeterminate :
    freshDigital.calls = 0 ∧
    freshDigital.read_cached = .vint 7 ∧
    freshDigital.read_cached ≠ .vint 0 :=
  ⟨rfl, rfl, by decide⟩

/-- C9: for every `InputRead` in any state, the implicit conversion
`operator Data()` returns exactly `read_cached()` — both return the `data`
member; neither takes a new state or touches the hardware line (both are
pure functions of the state in this embedding). -/
theorem conversion_equals_read_cached (l : InputRead) :
    l.toData = l.read_cached := rfl

/-! Behavior of the `Bus::read_all` loop. -/

theorem read_all_go_trace (inv : Bool) :
    ∀ (n : Nat) (bus : BusState) (i : Nat),
      (Bus.read_all_go bus inv i n).2 = (List.range' i n).map (fun j => (j, inv)) := by
  intro n
  induction n with
  | zero => intro bus i; rfl
  | succ n ih =>
    intro bus i
    show ((i, inv) :: (Bus.read_all_go (busReadAt bus i inv) inv (i + 1) n).2) = _
    rw [ih]
    simp [List.range']

theorem read_all_go_get (inv : Bool) :
    ∀ (n : Nat) (bus : BusState) (i j : Nat),
      (Bus.read_all_go bus inv i n).1[j]? =
        if i ≤ j ∧ j < i + n then bus[j]?.map (fun l => (l.read inv).2)
        else bus[j]? := by
  intro n
  induction n with
  | zero =>
    intro bus i j
    rw [if_neg (by omega)]
    rfl
  | succ n ih =>
    intro bus i j
    show (Bus.read_all_go (busReadAt bus i inv) inv (i + 1) n).1[j]? = _
    rw [ih]
    by_cases hj : j = i
    · subst hj
      rw [if_neg (by omega), if_pos (by omega), busReadAt_get_self]
    · rw [busReadAt_get_ne bus i inv j hj]
      by_cases h2 : i + 1 ≤ j ∧ j < i + 1 + n
      · rw [if_pos h2, if_pos (by omega)]
      · rw [if_neg h2, if_neg (by omega)]

/-- C6: `Bus::read_all(inverted)` performs exactly the hardware sample calls
(0, inverted), (1, inverted), …, (N-1, inverted) in ascending position
order, and the resulting state of every position `i` is its line after one
sample — whose cache, by `read_caches_sampled_value`, holds the value that
sample produced. -/
theorem bus_read_all_ascending (bus : BusState) (inv : Bool) :
    (Bus.read_all bus inv).2 = (List.range bus.length).map (fun i => (i, inv)) ∧
    ∀ (i : Nat) (l : InputRead), bus[i]? = some l →
      (Bus.read_all bus inv).1[i]? = some ((l.read inv).2) ∧
      ((l.read inv).2).read_cached = (l.read inv).1 := by
  constructor
  · rw [Bus.read_all, read_all_go_trace, List.range_eq_range']
  · intro i l h
    have hlt : i < bus.length := getElem?_some_lt h
    refine ⟨?_, rfl⟩
    rw [Bus.read_all, read_all_go_get, if_pos (by omega), h]
    rfl

/-- C6 witness: on the width-2 digital bus with raw samples (0, 0), position
0 after `read_all(true)` is its line after one inverted sample, and that
line's cache holds the sampled value 1. -/
theorem bus_read_all_ascending_witness :
    (Bus.read_all demoDBus2 true).1[0]? = some ((demoD0.read true).2) ∧
    ((demoD0.read true).2).read_cached = (demoD0.read true).1 :=
  (bus_read_all_ascending demoDBus2 true).2 0 demoD0 rfl

/-- C7: for every homogeneous bus and every runtime list of in-range
positions, `read(list, inverted)` succeeds (no out-of-range branch is taken)
and performs exactly the hardware sample calls `(id, inverted)` for the
listed ids, in list order; the final state is the left fold of the
single-position samples in that same order. -/
theorem bus_read_ids_in_list_order (bus : BusState) (ids : List Nat) (inv : Bool)
    (h : ∀ i ∈ ids, i < bus.length) :
    Bus.read_ids bus ids inv =
      .ok (ids.foldl (fun b i => busReadAt b i inv) bus,
           ids.map (fun i => (i, inv))) := by
  induction ids generalizing bus with
  | nil => rfl
  | cons a rest ih =>
    have ha : a < bus.length := h a (by simp)
    show (if bus.length ≤ a then AccessResult.undefinedAccess
          else match Bus.read_ids (busReadAt bus a inv) rest inv with
            | .ok (b, t) => .ok (b, (a, inv) :: t)
            | .outOfBoundsError => .outOfBoundsError
            | .undefinedAccess => .undefinedAccess) = _
    rw [if_neg (by omega)]
    rw [ih (busReadAt bus a inv) (fun i hi => by
      rw [busReadAt_length]; exact h i (by simp [hi]))]
    simp

/-- C7 witness: the spec's runtime list example `read({2, 0, 1}, false)` on
the width-3 digital bus samples positions 2, 0, then 1, in that order. -/
theorem bus_read_ids_in_list_order_witness :
    Bus.read_ids demoDBus3 [2, 0, 1] false =
      .ok ([2, 0, 1].foldl (fun b i => busReadAt b i false) demoDBus3,
           [(2, false), (0, false), (1, false)]) :=
  bus_read_ids_in_list_order demoDBus3 [2, 0, 1] false (by decide)

/-! Frame lemmas: positions not in a read's position list are untouched. -/

theorem read_var_frame :
    ∀ (ids : List Nat) (bus : BusState) (inv : Bool) (j : Nat), j ∉ ids →
      (Bus.read_var bus ids inv).1[j]? = bus[j]? := by
  intro ids
  induction ids with
  | nil => intro bus inv j _; rfl
  | cons a rest ih =>
    intro bus inv j hj
    have hja : j ≠ a := by simp at hj; exact hj.1
    have hjr : j ∉ rest := by simp at hj; exact hj.2
    cases rest with
    | nil => exact busReadAt_get_ne bus a inv j hja
    | cons b rest2 =>
      show (Bus.read_var (busReadAt bus a inv) (b :: rest2) false).1[j]? = _
      rw [ih (busReadAt bus a inv) false j hjr]
      exact busReadAt_get_ne bus a inv j hja

theorem read_ids_frame :
    ∀ (ids : List Nat) (bus : BusState) (inv : Bool) (j : Nat), j ∉ ids →
      ∀ (b : BusState) (t : Trace), Bus.read_ids bus ids inv = .ok (b, t) →
        b[j]? = bus[j]? := by
  intro ids
  induction ids with
  | nil =>
    intro bus inv j _ b t h
    have hb : bus = b := congrArg (fun r => match r with
      | AccessResult.ok (s, _) => s
      | _ => bus) h
    rw [← hb]
  | cons a rest ih =>
    intro bus inv j hj b t h
    have hja : j ≠ a := by simp at hj; exact hj.1
    have hjr : j ∉ rest := by simp at hj; exact hj.2
    rw [show Bus.read_ids bus (a :: rest) inv =
      (if bus.length ≤ a then AccessResult.undefinedAccess
       else match Bus.read_ids (busReadAt bus a inv) rest inv with
         | .ok (s, t2) => .ok (s, (a, inv) :: t2)
         | .outOfBoundsError => .outOfBoundsError
         | .undefinedAccess => .undefinedAccess) from rfl] at h
    by_cases hl : bus.length ≤ a
    · rw [if_pos hl] at h
      exact absurd h (fun hc => AccessResult.noConfusion hc)
    · rw [if_neg hl] at h
      cases hr : Bus.read_ids (busReadAt bus a inv) rest inv with
      | ok p =>
        rw [hr] at h
        have hb : p.1 = b := by
          cases p; cases h; rfl
        rw [← hb, ih (busReadAt bus a inv) inv j hjr p.1 p.2 (by rw [hr])]
        exact busReadAt_get_ne bus a inv j hja
      | outOfBoundsError =>
        rw [hr] at h; exact absurd h (fun hc => AccessResult.noConfusion hc)
      | undefinedAccess =>
        rw [hr] at h; exact absurd h (fun hc => AccessResult.noConfusion hc)

theorem vbus_read_one_get_ne (bus : BusState) (i : Nat) (inv : Bool) (j : Nat)
    (h : j ≠ i) : (VBus.read_one bus i inv).2[j]? = bus[j]? := by
  unfold VBus.read_one
  cases bus[i]? with
  | none => rfl
  | some l => exact List.getElem?_set_ne (Ne.symm h)

theorem read_iter_frame :
    ∀ (ids : List Nat) (bus : BusState) (record : List Value) (inv : Bool)
      (j : Nat), j ∉ ids →
      (VBus.read_iter bus record inv ids).2.1[j]? = bus[j]? := by
  intro ids
  induction ids with
  | nil => intro bus record inv j _; rfl
  | cons a rest ih =>
    intro bus record inv j hj
    have hja : j ≠ a := by simp at hj; exact hj.1
    have hjr : j ∉ rest := by simp at hj; exact hj.2
    cases rest with
    | nil => exact vbus_read_one_get_ne bus a inv j hja
    | cons b rest2 =>
      show (VBus.read_iter (VBus.read_one bus a inv).2
        (record.set (b :: rest2).length (VBus.read_one bus a inv).1) inv
        (b :: rest2)).2.1[j]? = _
      rw [ih (VBus.read_one bus a inv).2 _ inv j hjr]
      exact vbus_read_one_get_ne bus a inv j hja

/-- C8: for every selective read on either bus — the homogeneous
compile-time pack `read<I, ...>`, the homogeneous runtime-list `read`, and
the heterogeneous compile-time pack `read<I, ...>` (via `read_iter`) —
every position `j` not in the given position list keeps its prior state,
cached value included; only listed positions are mutated. -/
theorem selective_reads_preserve_unlisted (bus : BusState) (ids : List Nat)
    (record : List Value) (inv : Bool) (j : Nat) (hj : j ∉ ids) :
    (Bus.read_var bus ids inv).1[j]? = bus[j]? ∧
    (∀ (b : BusState) (t : Trace), Bus.read_ids bus ids inv = .ok (b, t) →
      b[j]? = bus[j]?) ∧
    (VBus.read_iter bus record inv ids).2.1[j]? = bus[j]? :=
  ⟨read_var_frame ids bus inv j hj,
   read_ids_frame ids bus inv j hj,
   read_iter_frame ids bus record inv j hj⟩

/-- C8 witness: on the width-3 digital bus, reading positions 0 and 2
(either interface) leaves position 1's state — and hence its cached value —
unchanged. -/
theorem selective_reads_preserve_unlisted_witness :
    (Bus.read_var demoDBus3 [0, 2] false).1[1]? = demoDBus3[1]? ∧
    (∀ (b : BusState) (t : Trace),
      Bus.read_ids demoDBus3 [0, 2] false = .ok (b, t) →
      b[1]? = demoDBus3[1]?) ∧
    (VBus.read_iter demoDBus3 [.vint 0, .vint 0] false [0, 2]).2.1[1]? =
      demoDBus3[1]? :=
  selective_reads_preserve_unlisted demoDBus3 [0, 2] [.vint 0, .vint 0] false 1
    (by decide)

/-! Determinism: equivalent line/bus states stay equivalent under every
operation, and produce equal sampled values and records. -/

theorem lineMatch_read {l1 l2 : InputRead} (h : LineMatch l1 l2) (inv : Bool) :
    (l1.read inv).1 = (l2.read inv).1 ∧
    LineMatch (l1.read inv).2 (l2.read inv).2 := by
  obtain ⟨hk, hd, hr⟩ := h
  have hr0 : l1.raw l1.calls = l2.raw l2.calls := by
    have h0 := hr 0
    simpa using h0
  have hv : (l1.read inv).1 = (l2.read inv).1 := by
    simp only [InputRead.read]
    rw [hk, hr0]
  refine ⟨hv, hk, hv, ?_⟩
  intro n
  show l1.raw (l1.calls + 1 + n) = l2.raw (l2.calls + 1 + n)
  have e1 : l1.calls + 1 + n = l1.calls + (n + 1) := by omega
  have e2 : l2.calls + 1 + n = l2.calls + (n + 1) := by omega
  rw [e1, e2]
  exact hr (n + 1)

theorem busMatch_busReadAt {b1 b2 : BusState} (h : BusMatch b1 b2)
    (i : Nat) (inv : Bool) :
    BusMatch (busReadAt b1 i inv) (busReadAt b2 i inv) := by
  obtain ⟨hl, hp⟩ := h
  refine ⟨by rw [busReadAt_length, busReadAt_length, hl], ?_⟩
  intro j
  by_cases hj : j = i
  · subst hj
    rw [busReadAt_get_self, busReadAt_get_self]
    have hpj := hp j
    cases h1 : b1[j]? with
    | none =>
      rw [h1] at hpj
      cases h2 : b2[j]? with
      | none => exact trivial
      | some l2 => rw [h2] at hpj; exact absurd hpj (by simp [OptMatch])
    | some l1 =>
      rw [h1] at hpj
      cases h2 : b2[j]? with
      | none => rw [h2] at hpj; exact absurd hpj (by simp [OptMatch])
      | some l2 =>
        rw [h2] at hpj
        exact (lineMatch_read hpj inv).2
  · rw [busReadAt_get_ne b1 i inv j hj, busReadAt_get_ne b2 i inv j hj]
    exact hp j

theorem read_all_go_match :
    ∀ (n : Nat) (i : Nat) (inv : Bool) (b1 b2 : BusState), BusMatch b1 b2 →
      BusMatch (Bus.read_all_go b1 inv i n).1 (Bus.read_all_go b2 inv i n).1 := by
  intro n
  induction n with
  | zero => intro i inv b1 b2 h; exact h
  | succ n ih =>
    intro i inv b1 b2 h
    exact ih (i + 1) inv (busReadAt b1 i inv) (busReadAt b2 i inv)
      (busMatch_busReadAt h i inv)

theorem read_all_match {b1 b2 : BusState} (h : BusMatch b1 b2) (inv : Bool) :
    BusMatch (Bus.read_all b1 inv).1 (Bus.read_all b2 inv).1 := by
  show BusMatch (Bus.read_all_go b1 inv 0 b1.length).1
    (Bus.read_all_go b2 inv 0 b2.length).1
  rw [← h.1]
  exact read_all_go_match b1.length 0 inv b1 b2 h

theorem read_var_match :
    ∀ (ids : List Nat) (inv : Bool) (b1 b2 : BusState), BusMatch b1 b2 →
      BusMatch (Bus.read_var b1 ids inv).1 (Bus.read_var b2 ids inv).1 := by
  intro ids
  induction ids with
  | nil => intro inv b1 b2 h; exact h
  | cons a rest ih =>
    intro inv b1 b2 h
    cases rest with
    | nil => exact busMatch_busReadAt h a inv
    | cons b rest2 =>
      exact ih false (busReadAt b1 a inv) (busReadAt b2 a inv)
        (busMatch_busReadAt h a inv)

theorem read_ids_match :
    ∀ (ids : List Nat) (inv : Bool) (b1 b2 : BusState), BusMatch b1 b2 →
      (Bus.read_ids b1 ids inv = .undefinedAccess ∧
       Bus.read_ids b2 ids inv = .undefinedAccess) ∨
      (∃ (s1 s2 : BusState) (t : Trace),
        Bus.read_ids b1 ids inv = .ok (s1, t) ∧
        Bus.read_ids b2 ids inv = .ok (s2, t) ∧ BusMatch s1 s2) := by
  intro ids
  induction ids with
  | nil =>
    intro inv b1 b2 h
    exact Or.inr ⟨b1, b2, [], rfl, rfl, h⟩
  | cons a rest ih =>
    intro inv b1 b2 h
    have e1 : Bus.read_ids b1 (a :: rest) inv =
        (if b1.length ≤ a then AccessResult.undefinedAccess
         else match Bus.read_ids (busReadAt b1 a inv) rest inv with
           | .ok (s, t2) => .ok (s, (a, inv) :: t2)
           | .outOfBoundsError => .outOfBoundsError
           | .undefinedAccess => .undefinedAccess) := rfl
    have e2 : Bus.read_ids b2 (a :: rest) inv =
        (if b2.length ≤ a then AccessResult.undefinedAccess
         else match Bus.read_ids (busReadAt b2 a inv) rest inv with
           | .ok (s, t2) => .ok (s, (a, inv) :: t2)
           | .outOfBoundsError => .outOfBoundsError
           | .undefinedAccess => .undefinedAccess) := rfl
    rw [e1, e2]
    by_cases hl : b1.length ≤ a
    · rw [if_pos hl, if_pos (by rw [← h.1]; exact hl)]
      exact Or.inl ⟨rfl, rfl⟩
    · rw [if_neg hl, if_neg (by rw [← h.1]; exact hl)]
      rcases ih inv (busReadAt b1 a inv) (busReadAt b2 a inv)
        (busMatch_busReadAt h a inv) with ⟨h1, h2⟩ | ⟨s1, s2, t, h1, h2, hm⟩
      · rw [h1, h2]
        exact Or.inl ⟨rfl, rfl⟩
      · rw [h1, h2]
        exact Or.inr ⟨s1, s2, (a, inv) :: t, rfl, rfl, hm⟩

theorem vbus_read_one_state (bus : BusState) (i : Nat) (inv : Bool) :
    (VBus.read_one bus i inv).2 = busReadAt bus i inv := by
  unfold VBus.read_one busReadAt
  cases bus[i]? <;> rfl

theorem vbus_read_one_match {b1 b2 : BusState} (h : BusMatch b1 b2)
    (i : Nat) (inv : Bool) :
    (VBus.read_one b1 i inv).1 = (VBus.read_one b2 i inv).1 ∧
    BusMatch (VBus.read_one b1 i inv).2 (VBus.read_one b2 i inv).2 := by
  constructor
  · have hpj := h.2 i
    unfold VBus.read_one
    cases h1 : b1[i]? with
    | none =>
      rw [h1] at hpj
      cases h2 : b2[i]? with
      | none => rfl
      | some l2 => rw [h2] at hpj; exact absurd hpj (by simp [OptMatch])
    | some l1 =>
      rw [h1] at hpj
      cases h2 : b2[i]? with
      | none => rw [h2] at hpj; exact absurd hpj (by simp [OptMatch])
      | some l2 =>
        rw [h2] at hpj
        exact (lineMatch_read hpj inv).1
  · rw [vbus_read_one_state, vbus_read_one_state]
    exact busMatch_busReadAt h i inv

theorem read_iter_match :
    ∀ (ids : List Nat) (inv : Bool) (rec : List Value) (b1 b2 : BusState),
      BusMatch b1 b2 →
      (VBus.read_iter b1 rec inv ids).1 = (VBus.read_iter b2 rec inv ids).1 ∧
      BusMatch (VBus.read_iter b1 rec inv ids).2.1
        (VBus.read_iter b2 rec inv ids).2.1 := by
  intro ids
  induction ids with
  | nil => intro inv rec b1 b2 h; exact ⟨rfl, h⟩
  | cons a rest ih =>
    intro inv rec b1 b2 h
    obtain ⟨hv, hs⟩ := vbus_read_one_match h a inv
    cases rest with
    | nil =>
      refine ⟨?_, ?_⟩
      · show rec.set 0 (VBus.read_one b1 a inv).1 =
          rec.set 0 (VBus.read_one b2 a inv).1
        rw [hv]
      · show BusMatch (VBus.read_one b1 a inv).2 (VBus.read_one b2 a inv).2
        exact hs
    | cons b rest2 =>
      have hrec : rec.set (b :: rest2).length (VBus.read_one b1 a inv).1 =
          rec.set (b :: rest2).length (VBus.read_one b2 a inv).1 := by rw [hv]
      obtain ⟨hr2, hm2⟩ := ih inv (rec.set (b :: rest2).length
        (VBus.read_one b2 a inv).1) (VBus.read_one b1 a inv).2
        (VBus.read_one b2 a inv).2 hs
      constructor
      · show (VBus.read_iter (VBus.read_one b1 a inv).2
          (rec.set (b :: rest2).length (VBus.read_one b1 a inv).1) inv
          (b :: rest2)).1 = _
        rw [hrec, hr2]
        rfl
      · show BusMatch (VBus.read_iter (VBus.read_one b1 a inv).2
          (rec.set (b :: rest2).length (VBus.read_one b1 a inv).1) inv
          (b :: rest2)).2.1 _
        rw [hrec]
        exact hm2

theorem initRecord_match {b1 b2 : BusState} (h : BusMatch b1 b2)
    (ids : List Nat) : VBus.initRecord b1 ids = VBus.initRecord b2 ids := by
  unfold VBus.initRecord
  refine List.map_eq_map_iff.mpr ?_
  intro i _
  have hpj := h.2 i
  cases h1 : b1[i]? with
  | none =>
    rw [h1] at hpj
    cases h2 : b2[i]? with
    | none => rfl
    | some l2 => rw [h2] at hpj; exact absurd hpj (by simp [OptMatch])
  | some l1 =>
    rw [h1] at hpj
    cases h2 : b2[i]? with
    | none => rw [h2] at hpj; exact absurd hpj (by simp [OptMatch])
    | some l2 =>
      rw [h2] at hpj
      show l1.kind.zeroValue = l2.kind.zeroValue
      rw [hpj.1]

theorem zeroRecord_match {b1 b2 : BusState} (h : BusMatch b1 b2) :
    b1.map (fun l => l.kind.zeroValue) = b2.map (fun l => l.kind.zeroValue) := by
  refine List.ext_getElem? ?_
  intro i
  rw [List.getElem?_map, List.getElem?_map]
  have hpj := h.2 i
  cases h1 : b1[i]? with
  | none =>
    rw [h1] at hpj
    cases h2 : b2[i]? with
    | none => rfl
    | some l2 => rw [h2] at hpj; exact absurd hpj (by simp [OptMatch])
  | some l1 =>
    rw [h1] at hpj
    cases h2 : b2[i]? with
    | none => rw [h2] at hpj; exact absurd hpj (by simp [OptMatch])
    | some l2 =>
      rw [h2] at hpj
      show some l1.kind.zeroValue = some l2.kind.zeroValue
      rw [hpj.1]

theorem read_all_iter_match :
    ∀ (n : Nat) (inv : Bool) (rec : List Value) (b1 b2 : BusState),
      BusMatch b1 b2 →
      (VBus.read_all_iter b1 rec inv n).1 = (VBus.read_all_iter b2 rec inv n).1 ∧
      BusMatch (VBus.read_all_iter b1 rec inv n).2.1
        (VBus.read_all_iter b2 rec inv n).2.1 := by
  intro n
  induction n using Nat.strong_induction_on with
  | _ n ih =>
    match n with
    | 0 => intro inv rec b1 b2 h; exact ⟨rfl, h⟩
    | 1 =>
      intro inv rec b1 b2 h
      obtain ⟨hv, hs⟩ := vbus_read_one_match h 0 inv
      refine ⟨?_, hs⟩
      show rec.set 0 (VBus.read_one b1 0 inv).1 =
        rec.set 0 (VBus.read_one b2 0 inv).1
      rw [hv]
    | m + 2 =>
      intro inv rec b1 b2 h
      obtain ⟨hv, hs⟩ := vbus_read_one_match h (m + 2) inv
      have hrec : rec.set (m + 2) (VBus.read_one b1 (m + 2) inv).1 =
          rec.set (m + 2) (VBus.read_one b2 (m + 2) inv).1 := by rw [hv]
      obtain ⟨hr2, hm2⟩ := ih (m + 1) (by omega) inv
        (rec.set (m + 2) (VBus.read_one b2 (m + 2) inv).1)
        (VBus.read_one b1 (m + 2) inv).2 (VBus.read_one b2 (m + 2) inv).2 hs
      constructor
      · show (VBus.read_all_iter (VBus.read_one b1 (m + 2) inv).2
          (rec.set (m + 2) (VBus.read_one b1 (m + 2) inv).1) inv (m + 1)).1 = _
        rw [hrec, hr2]
        rfl
      · show BusMatch (VBus.read_all_iter (VBus.read_one b1 (m + 2) inv).2
          (rec.set (m + 2) (VBus.read_one b1 (m + 2) inv).1) inv (m + 1)).2.1 _
        rw [hrec]
        exact hm2

theorem vbus_read_all_match {b1 b2 : BusState} (h : BusMatch b1 b2)
    (inv : Bool) :
    (VBus.read_all b1 inv).1 = (VBus.read_all b2 inv).1 ∧
    BusMatch (VBus.read_all b1 inv).2.1 (VBus.read_all b2 inv).2.1 := by
  unfold VBus.read_all
  rw [zeroRecord_match h, h.1]
  exact read_all_iter_match (b2.length - 1) inv
    (b2.map fun l => l.kind.zeroValue) b1 b2 h

theorem vbus_read_var_match {b1 b2 : BusState} (h : BusMatch b1 b2)
    (ids : List Nat) (inv : Bool) :
    (VBus.read_var b1 ids inv).1 = (VBus.read_var b2 ids inv).1 ∧
    BusMatch (VBus.read_var b1 ids inv).2.1 (VBus.read_var b2 ids inv).2.1 := by
  unfold VBus.read_var
  rw [initRecord_match h ids]
  exact read_iter_match ids inv (VBus.initRecord b2 ids) b1 b2 h

theorem busOp_run_match {b1 b2 : BusState} (h : BusMatch b1 b2) (op : BusOp) :
    (op.run b1 = .undefinedAccess ∧ op.run b2 = .undefinedAccess) ∨
    (∃ (s1 s2 : BusState) (out : List Value),
      op.run b1 = .ok (s1, out) ∧ op.run b2 = .ok (s2, out) ∧
      BusMatch s1 s2) := by
  cases op with
  | readAllH inv =>
    exact Or.inr ⟨(Bus.read_all b1 inv).1, (Bus.read_all b2 inv).1, [],
      rfl, rfl, read_all_match h inv⟩
  | readListH ids inv =>
    exact Or.inr ⟨(Bus.read_var b1 ids inv).1, (Bus.read_var b2 ids inv).1, [],
      rfl, rfl, read_var_match ids inv b1 b2 h⟩
  | readIdsH ids inv =>
    have e1 : BusOp.run b1 (.readIdsH ids inv) =
        (match Bus.read_ids b1 ids inv with
         | .ok (b, _) => AccessResult.ok (b, ([] : List Value))
         | .outOfBoundsError => .outOfBoundsError
         | .undefinedAccess => .undefinedAccess) := rfl
    have e2 : BusOp.run b2 (.readIdsH ids inv) =
        (match Bus.read_ids b2 ids inv with
         | .ok (b, _) => AccessResult.ok (b, ([] : List Value))
         | .outOfBoundsError => .outOfBoundsError
         | .undefinedAccess => .undefinedAccess) := rfl
    rcases read_ids_match ids inv b1 b2 h with ⟨h1, h2⟩ | ⟨s1, s2, t, h1, h2, hm⟩
    · refine Or.inl ⟨?_, ?_⟩
      · rw [e1, h1]
      · rw [e2, h2]
    · refine Or.inr ⟨s1, s2, [], ?_, ?_, hm⟩
      · rw [e1, h1]
      · rw [e2, h2]
  | readAllV inv =>
    obtain ⟨hrec, hm⟩ := vbus_read_all_match h inv
    refine Or.inr ⟨(VBus.read_all b1 inv).2.1, (VBus.read_all b2 inv).2.1,
      (VBus.read_all b1 inv).1, rfl, ?_, hm⟩
    show AccessResult.ok ((VBus.read_all b2 inv).2.1, (VBus.read_all b2 inv).1) = _
    rw [hrec]
  | readListV ids inv =>
    obtain ⟨hrec, hm⟩ := vbus_read_var_match h ids inv
    refine Or.inr ⟨(VBus.read_var b1 ids inv).2.1, (VBus.read_var b2 ids inv).2.1,
      (VBus.read_var b1 ids inv).1, rfl, ?_, hm⟩
    show AccessResult.ok ((VBus.read_var b2 ids inv).2.1, (VBus.read_var b2 ids inv).1) = _
    rw [hrec]

theorem runOps_match :
    ∀ (ops : List BusOp) (b1 b2 : BusState), BusMatch b1 b2 →
      ResMatch (runOps b1 ops) (runOps b2 ops) := by
  intro ops
  induction ops with
  | nil => intro b1 b2 h; exact ⟨h, rfl⟩
  | cons op rest ih =>
    intro b1 b2 h
    have e1 : runOps b1 (op :: rest) =
        (match op.run b1 with
         | .ok (b, out) =>
           match runOps b rest with
           | .ok (b2x, outs) => .ok (b2x, out :: outs)
           | .outOfBoundsError => .outOfBoundsError
           | .undefinedAccess => .undefinedAccess
         | .outOfBoundsError => .outOfBoundsError
         | .undefinedAccess => .undefinedAccess) := rfl
    have e2 : runOps b2 (op :: rest) =
        (match op.run b2 with
         | .ok (b, out) =>
           match runOps b rest with
           | .ok (b2x, outs) => .ok (b2x, out :: outs)
           | .outOfBoundsError => .outOfBoundsError
           | .undefinedAccess => .undefinedAccess
         | .outOfBoundsError => .outOfBoundsError
         | .undefinedAccess => .undefinedAccess) := rfl
    rcases busOp_run_match h op with ⟨h1, h2⟩ | ⟨s1, s2, out, h1, h2, hm⟩
    · have g1 : runOps b1 (op :: rest) = .undefinedAccess := by rw [e1, h1]
      have g2 : runOps b2 (op :: rest) = .undefinedAccess := by rw [e2, h2]
      rw [g1, g2]
      exact trivial
    · have f1 : runOps b1 (op :: rest) =
          (match runOps s1 rest with
           | .ok (b2x, outs) => AccessResult.ok (b2x, out :: outs)
           | .outOfBoundsError => .outOfBoundsError
           | .undefinedAccess => .undefinedAccess) := by rw [e1, h1]
      have f2 : runOps b2 (op :: rest) =
          (match runOps s2 rest with
           | .ok (b2x, outs) => AccessResult.ok (b2x, out :: outs)
           | .outOfBoundsError => .outOfBoundsError
           | .undefinedAccess => .undefinedAccess) := by rw [e2, h2]
      rw [f1, f2]
      have hres := ih s1 s2 hm
      cases hr1 : runOps s1 rest with
      | ok p1 =>
        obtain ⟨sa, oa⟩ := p1
        cases hr2 : runOps s2 rest with
        | ok p2 =>
          obtain ⟨sb, ob⟩ := p2
          rw [hr1, hr2] at hres
          obtain ⟨hm2, ho⟩ := hres
          exact ⟨hm2, by rw [ho]⟩
        | outOfBoundsError =>
          rw [hr1, hr2] at hres
          exact False.elim hres
        | undefinedAccess =>
          rw [hr1, hr2] at hres
          exact False.elim hres
      | outOfBoundsError =>
        cases hr2 : runOps s2 rest with
        | ok p2 =>
          rw [hr1, hr2] at hres
          obtain ⟨sb, ob⟩ := p2
          exact False.elim hres
        | outOfBoundsError => exact trivial
        | undefinedAccess =>
          rw [hr1, hr2] at hres
          exact False.elim hres
      | undefinedAccess =>
        cases hr2 : runOps s2 rest with
        | ok p2 =>
          rw [hr1, hr2] at hres
          obtain ⟨sb, ob⟩ := p2
          exact False.elim hres
        | outOfBoundsError =>
          rw [hr1, hr2] at hres
          exact False.elim hres
        | undefinedAccess => exact trivial

theorem busMatch_read_cached {s1 s2 : BusState} (h : BusMatch s1 s2) :
    s1.map InputRead.read_cached = s2.map InputRead.read_cached := by
  refine List.ext_getElem? ?_
  intro i
  rw [List.getElem?_map, List.getElem?_map]
  have hpj := h.2 i
  cases h1 : s1[i]? with
  | none =>
    rw [h1] at hpj
    cases h2 : s2[i]? with
    | none => rfl
    | some l2 => rw [h2] at hpj; exact absurd hpj (by simp [OptMatch])
  | some l1 =>
    rw [h1] at hpj
    cases h2 : s2[i]? with
    | none => rw [h2] at hpj; exact absurd hpj (by simp [OptMatch])
    | some l2 =>
      rw [h2] at hpj
      show some l1.data = some l2.data
      rw [hpj.2.1]

theorem busMatch_index {s1 s2 : BusState} (h : BusMatch s1 s2) (i : Nat) :
    Bus.index s1 i = Bus.index s2 i := by
  unfold Bus.index
  have hpj := h.2 i
  cases h1 : s1[i]? with
  | none =>
    rw [h1] at hpj
    cases h2 : s2[i]? with
    | none => rfl
    | some l2 => rw [h2] at hpj; exact absurd hpj (by simp [OptMatch])
  | some l1 =>
    rw [h1] at hpj
    cases h2 : s2[i]? with
    | none => rw [h2] at hpj; exact absurd hpj (by simp [OptMatch])
    | some l2 =>
      rw [h2] at hpj
      show AccessResult.ok l1.data = AccessResult.ok l2.data
      rw [hpj.2.1]

theorem busMatch_get {s1 s2 : BusState} (h : BusMatch s1 s2) (i : Nat) :
    Bus.get s1 i = Bus.get s2 i := by
  unfold Bus.get
  have hpj := h.2 i
  cases h1 : s1[i]? with
  | none =>
    rw [h1] at hpj
    cases h2 : s2[i]? with
    | none => rfl
    | some l2 => rw [h2] at hpj; exact absurd hpj (by simp [OptMatch])
  | some l1 =>
    rw [h1] at hpj
    cases h2 : s2[i]? with
    | none => rw [h2] at hpj; exact absurd hpj (by simp [OptMatch])
    | some l2 =>
      rw [h2] at hpj
      show l1.data = l2.data
      exact hpj.2.1

theorem vbusMatch_get {s1 s2 : BusState} (h : BusMatch s1 s2) (i : Nat) :
    VBus.get s1 i = VBus.get s2 i := by
  unfold VBus.get
  have hpj := h.2 i
  cases h1 : s1[i]? with
  | none =>
    rw [h1] at hpj
    cases h2 : s2[i]? with
    | none => rfl
    | some l2 => rw [h2] at hpj; exact absurd hpj (by simp [OptMatch])
  | some l1 =>
    rw [h1] at hpj
    cases h2 : s2[i]? with
    | none => rw [h2] at hpj; exact absurd hpj (by simp [OptMatch])
    | some l2 =>
      rw [h2] at hpj
      show l1.data = l2.data
      exact hpj.2.1

theorem busMatch_rfl (b : BusState) : BusMatch b b := by
  refine ⟨rfl, ?_⟩
  intro i
  cases b[i]? with
  | none => exact trivial
  | some l => exact ⟨rfl, rfl, fun n => rfl⟩

/-- C10 (amended): determinism relative to the full initial state. The
original claim fails because a freshly constructed line's cache is
uninitialized (see the counterexample); once the two runs additionally start
from buses with equal kinds and equal cached values — `BusMatch`, which
also demands that the line capabilities return equal raw samples at
corresponding calls — executing the same operation sequence yields matching
outcomes: the same success/out-of-range branch, equal returned records,
equal cached values position-wise, and equal indexed/`get` reads. -/
theorem bus_ops_deterministic (b1 b2 : BusState) (ops : List BusOp)
    (h : BusMatch b1 b2) :
    ResMatch (runOps b1 ops) (runOps b2 ops) ∧
    ∀ (s1 s2 : BusState) (o1 o2 : List (List Value)),
      runOps b1 ops = .ok (s1, o1) → runOps b2 ops = .ok (s2, o2) →
      o1 = o2 ∧
      s1.map InputRead.read_cached = s2.map InputRead.read_cached ∧
      ∀ i : Nat, Bus.index s1 i = Bus.index s2 i ∧
        Bus.get s1 i = Bus.get s2 i ∧ VBus.get s1 i = VBus.get s2 i := by
  have hres := runOps_match ops b1 b2 h
  refine ⟨hres, ?_⟩
  intro s1 s2 o1 o2 h1 h2
  rw [h1, h2] at hres
  obtain ⟨hm, ho⟩ := hres
  exact ⟨ho, busMatch_read_cached hm,
    fun i => ⟨busMatch_index hm i, busMatch_get hm i, vbusMatch_get hm i⟩⟩

/-- C10 witness: two runs of `read_all(true)` followed by the heterogeneous
`read<0, 1>(false)` from equal initial states produce matching outcomes. -/
theorem bus_ops_deterministic_witness :
    ResMatch (runOps demoDBus2 [.readAllH true, .readListV [0, 1] false])
      (runOps demoDBus2 [.readAllH true, .readListV [0, 1] false]) ∧
    ∀ (s1 s2 : BusState) (o1 o2 : List (List Value)),
      runOps demoDBus2 [.readAllH true, .readListV [0, 1] false] = .ok (s1, o1) →
      runOps demoDBus2 [.readAllH true, .readListV [0, 1] false] = .ok (s2, o2) →
      o1 = o2 ∧
      s1.map InputRead.read_cached = s2.map InputRead.read_cached ∧
      ∀ i : Nat, Bus.index s1 i = Bus.index s2 i ∧
        Bus.get s1 i = Bus.get s2 i ∧ VBus.get s1 i = VBus.get s2 i :=
  bus_ops_deterministic demoDBus2 demoDBus2
    [.readAllH true, .readListV [0, 1] false] (busMatch_rfl demoDBus2)

/-- C10 counterexample to the claim as stated: two runs execute the same
single operation — an indexed cache read at position 0 — on freshly
constructed one-line digital buses whose line capabilities have identical
raw sample streams (so the hardware returns equal raw samples at every
corresponding call; here neither run samples at all). The results differ,
because the uninitialized caches of the two fresh instances happen to hold
different indeterminate values (0 and 7). -/
theorem determinism_fails_on_indeterminate_cache :
    Bus.index [InputRead.construct .digital (fun _ => .vint 1) (.vint 0)] 0 ≠
    Bus.index [InputRead.construct .digital (fun _ => .vint 1) (.vint 7)] 0 := by
  decide
